import Mathlib

/-!
Shallow embedding of the NT_BMIPGen package: the instance generator
(`problem_generator.py`), the model loader (`problem_loading.py`), and the
triviality / corpus-building loops (`triviality.py`).  Numeric values are
modelled as rationals; random draws are modelled by an explicit sample
stream `u : ℕ → ℚ` of values in `[0,1]`, consumed in program order.
-/

/-- The eight variable groups of the data model (metadata keys). -/
inductive GroupId
  | x_ud | y_ud | x_uc | y_uc | x_ld | y_ld | x_lc | y_lc
deriving DecidableEq, Repr

/-- The dimension parameters: one non-negative count per variable group. -/
structure Params where
  x_ud : ℕ
  y_ud : ℕ
  x_uc : ℕ
  y_uc : ℕ
  x_ld : ℕ
  y_ld : ℕ
  x_lc : ℕ
  y_lc : ℕ
deriving DecidableEq, Repr

/-- Size of one variable group, read off the metadata record. -/
def gsize (p : Params) : GroupId → ℕ
  | .x_ud => p.x_ud
  | .y_ud => p.y_ud
  | .x_uc => p.x_uc
  | .y_uc => p.y_uc
  | .x_ld => p.x_ld
  | .y_ld => p.y_ld
  | .x_lc => p.x_lc
  | .y_lc => p.y_lc

/-- The five constraint blocks. -/
inductive CBlock
  | G_ud | g_ld | G_uc | g_lc | g_g
deriving DecidableEq, Repr

/-- The five objective blocks. -/
inductive OBlock
  | F_u | F_l | F_c | ff_l | ff_c
deriving DecidableEq, Repr

/-- Feeding variable groups of each constraint block, in concatenation order
(`problem_generator.py` lines 68-74 and `problem_loading.py` lines 99-107). -/
def cGroups : CBlock → List GroupId
  | .G_ud => [.x_ud, .y_ud]
  | .g_ld => [.x_ld, .y_ld]
  | .G_uc => [.x_ud, .y_ud, .x_uc, .y_uc]
  | .g_lc => [.x_ld, .y_ld, .x_lc, .y_lc]
  | .g_g  => [.x_uc, .y_uc, .x_lc, .y_lc]

/-- Feeding variable groups of each objective block
(`problem_generator.py` lines 84-90 and `problem_loading.py` lines 136-140). -/
def oGroups : OBlock → List GroupId
  | .F_u  => [.x_ud, .y_ud]
  | .F_l  => [.x_ld, .y_ld]
  | .F_c  => [.x_uc, .y_uc, .x_lc, .y_lc]
  | .ff_l => [.x_ld, .y_ld]
  | .ff_c => [.x_uc, .y_uc, .x_lc, .y_lc]

/-- Derived size of a constraint block: summed size of its feeding groups. -/
def cSize (p : Params) (cb : CBlock) : ℕ := ((cGroups cb).map (gsize p)).sum

/-- Derived length of an objective block vector. -/
def oSize (p : Params) (ob : OBlock) : ℕ := ((oGroups ob).map (gsize p)).sum

/-- `np.round(x, 6)`: round to 6 decimal places. -/
def round6 (q : ℚ) : ℚ := ((round (q * 1000000) : ℤ) : ℚ) / 1000000

/-- A uniform draw from `[low, high]`, driven by a raw sample `t ∈ [0,1]`. -/
def uniformVal (low high t : ℚ) : ℚ := low + t * (high - low)

/-- One random vector: `np.round(np.random.uniform(low, high, len), 6)`,
consuming samples `u off, u (off+1), ...`. -/
def randVec (u : ℕ → ℚ) (off len : ℕ) (low high : ℚ) : List ℚ :=
  (List.range len).map fun i => round6 (uniformVal low high (u (off + i)))

/-- One random matrix, row-major over the sample stream. -/
def randMat (u : ℕ → ℚ) (off rows cols : ℕ) (low high : ℚ) : List (List ℚ) :=
  (List.range rows).map fun i => randVec u (off + i * cols) cols low high

/-- A generated, persisted instance: metadata plus per-block matrices,
right-hand sides and objective vectors. -/
structure Instance where
  metadata : Params
  A : CBlock → List (List ℚ)
  b : CBlock → List ℚ
  obj : OBlock → List ℚ

/-- Number of samples one constraint block consumes (its `(n, n)` matrix
followed by its length-`n` vector). -/
def blkSpan (p : Params) (cb : CBlock) : ℕ :=
  cSize p cb * cSize p cb + cSize p cb

/-- Stream offset at which a constraint block's matrix starts, following the
generator's dict order `G_ud, g_ld, G_uc, g_lc, g_g`. -/
def cOffA (p : Params) : CBlock → ℕ
  | .G_ud => 0
  | .g_ld => blkSpan p .G_ud
  | .G_uc => blkSpan p .G_ud + blkSpan p .g_ld
  | .g_lc => blkSpan p .G_ud + blkSpan p .g_ld + blkSpan p .G_uc
  | .g_g  => blkSpan p .G_ud + blkSpan p .g_ld + blkSpan p .G_uc + blkSpan p .g_lc

/-- Stream offset of an objective block's vector, following the generator's
dict order `F_u, F_l, F_c, ff_l, ff_c` after the five constraint blocks. -/
def oOff (p : Params) : OBlock → ℕ
  | .F_u  => cOffA p .g_g + blkSpan p .g_g
  | .F_l  => cOffA p .g_g + blkSpan p .g_g + oSize p .F_u
  | .F_c  => cOffA p .g_g + blkSpan p .g_g + oSize p .F_u + oSize p .F_l
  | .ff_l => cOffA p .g_g + blkSpan p .g_g + oSize p .F_u + oSize p .F_l + oSize p .F_c
  | .ff_c => cOffA p .g_g + blkSpan p .g_g + oSize p .F_u + oSize p .F_l + oSize p .F_c
              + oSize p .ff_l

/-- `generate_problem` (`problem_generator.py` lines 41-97): writes the
metadata, then for each constraint block (dict order `G_ud, g_ld, G_uc, g_lc,
g_g`) a square matrix `(n, n)` uniform in `[-10, 10]` and a vector of length
`n` uniform in `[0, 10]`, then for each objective block (order `F_u, F_l, F_c,
ff_l, ff_c`) a vector of its derived length uniform in `[-10, 10]`, all
rounded to 6 decimals, consuming the sample stream sequentially. -/
def generate_problem (u : ℕ → ℚ) (p : Params) : Instance :=
  { metadata := p
    A := fun cb => randMat u (cOffA p cb) (cSize p cb) (cSize p cb) (-10) 10
    b := fun cb => randVec u (cOffA p cb + cSize p cb * cSize p cb) (cSize p cb) 0 10
    obj := fun ob => randVec u (oOff p ob) (oSize p ob) (-10) 10 }

/-- Abstraction of the exceptions the loader can raise: `missingData` for a
`FileNotFoundError` on a required per-block file, `shapeMismatch` for an
`IndexError` caused by data smaller than an accessed index. -/
inductive LoadError
  | missingData | shapeMismatch
deriving DecidableEq, Repr

/-- On-disk state seen by the loader: each per-block file is present
(`some` data) or absent (`none`). -/
structure Storage where
  metadata : Params
  A : CBlock → Option (List (List ℚ))
  b : CBlock → Option (List ℚ)
  obj : OBlock → Option (List ℚ)

/-- Storage produced by a run of the generator (all ten per-block files present). -/
def instToStorage (inst : Instance) : Storage :=
  { metadata := inst.metadata
    A := fun cb => some (inst.A cb)
    b := fun cb => some (inst.b cb)
    obj := fun ob => some (inst.obj ob) }

/-- The accesses `v[j]` for `j in range(n)`: succeed with the first `n`
entries iff the list has at least `n` entries, else `IndexError`. -/
def takeExact (l : List ℚ) (n : ℕ) : Except LoadError (List ℚ) :=
  if n ≤ l.length then .ok (l.take n) else .error .shapeMismatch

/-- The constraint loop of `add_constraints` (`problem_loading.py` lines
85-95): for `i in range(b.size)`, read row `i` of `A` (IndexError if `A` has
fewer rows), take its first `n` coefficients (IndexError if the row is
shorter), and pair them with `b[i]`. -/
def zipRows : List (List ℚ) → List ℚ → ℕ → Except LoadError (List (List ℚ × ℚ))
  | _, [], _ => .ok []
  | [], _ :: _, _ => .error .shapeMismatch
  | row :: rows, bi :: bs, n =>
    match takeExact row n with
    | .error e => .error e
    | .ok coeffs =>
      match zipRows rows bs n with
      | .error e => .error e
      | .ok rest => .ok ((coeffs, bi) :: rest)

/-- `add_constraints` (`problem_loading.py` lines 69-95): skipped entirely
when the feeding groups' total size is zero; otherwise reads the `_A` and
`_b` files (absence is a `FileNotFoundError`) and adds one `A[i]·x ≤ b[i]`
row per entry of `b`. -/
def add_constraints (p : Params) (xs : List GroupId)
    (Afile : Option (List (List ℚ))) (bfile : Option (List ℚ)) :
    Except LoadError (List (List ℚ × ℚ)) :=
  let n := (xs.map (gsize p)).sum
  if n = 0 then .ok []
  else
    match Afile with
    | none => .error .missingData
    | some A =>
      match bfile with
      | none => .error .missingData
      | some b => zipRows A b n

/-- `build_objective` (`problem_loading.py` lines 109-133): returns the zero
term when the feeding groups' total size is zero; otherwise reads the block's
vector file and uses coefficients `o[j]` for `j in range(n)`. The zero term
is represented by the empty coefficient list. -/
def build_objective (p : Params) (xs : List GroupId)
    (ofile : Option (List ℚ)) : Except LoadError (List ℚ) :=
  let n := (xs.map (gsize p)).sum
  if n = 0 then .ok []
  else
    match ofile with
    | none => .error .missingData
    | some o => takeExact o n

/-- The built Model: per-block constraint rows (coefficients over the block's
concatenated variables, with the right-hand side) and per-block objective
coefficient vectors; an empty list is an absent block / zero term. -/
structure Model where
  params : Params
  cons : CBlock → List (List ℚ × ℚ)
  objC : OBlock → List ℚ

/-- `load_problem` (`problem_loading.py` lines 25-147): adds the five
constraint blocks in source order, then builds the five objective terms; any
exception aborts the build and no model results. -/
def load_problem (s : Storage) : Except LoadError Model := do
  let cGud ← add_constraints s.metadata (cGroups .G_ud) (s.A .G_ud) (s.b .G_ud)
  let cgld ← add_constraints s.metadata (cGroups .g_ld) (s.A .g_ld) (s.b .g_ld)
  let cGuc ← add_constraints s.metadata (cGroups .G_uc) (s.A .G_uc) (s.b .G_uc)
  let cglc ← add_constraints s.metadata (cGroups .g_lc) (s.A .g_lc) (s.b .g_lc)
  let cgg  ← add_constraints s.metadata (cGroups .g_g)  (s.A .g_g)  (s.b .g_g)
  let oFu  ← build_objective s.metadata (oGroups .F_u)  (s.obj .F_u)
  let oFl  ← build_objective s.metadata (oGroups .F_l)  (s.obj .F_l)
  let oFc  ← build_objective s.metadata (oGroups .F_c)  (s.obj .F_c)
  let offl ← build_objective s.metadata (oGroups .ff_l) (s.obj .ff_l)
  let offc ← build_objective s.metadata (oGroups .ff_c) (s.obj .ff_c)
  pure
    { params := s.metadata
      cons := fun cb =>
        match cb with
        | .G_ud => cGud
        | .g_ld => cgld
        | .G_uc => cGuc
        | .g_lc => cglc
        | .g_g  => cgg
      objC := fun ob =>
        match ob with
        | .F_u  => oFu
        | .F_l  => oFl
        | .F_c  => oFc
        | .ff_l => offl
        | .ff_c => offc }

/-- The triviality threshold `1e-6` of `triviality.py`. -/
def trivialThreshold : ℚ := 1 / 1000000

/-- Classification rule (`triviality.py` line 82 / 173): trivial iff
`abs(gap) < 1e-6`. -/
def isTrivial (gap : ℚ) : Prop := |gap| < trivialThreshold

instance (gap : ℚ) : Decidable (isTrivial gap) := by
  unfold isTrivial; infer_instance

/-- Metadata record, modelled as an association list in insertion order. -/
abbrev Metadata := List (String × ℚ)

/-- One step of Python `dict.update`: an existing key's value is replaced in
place, a new key is appended. -/
def updOne (m : Metadata) (k : String) (v : ℚ) : Metadata :=
  if m.any fun kv => kv.1 = k then
    m.map fun kv => if kv.1 = k then (k, v) else kv
  else m ++ [(k, v)]

/-- Python `dict.update` with several key-value pairs. -/
def dictUpdate (m : Metadata) (kvs : Metadata) : Metadata :=
  kvs.foldl (fun acc kv => updOne acc kv.1 kv.2) m

/-- Per-instance classification step (`triviality.py` lines 79-102): compute
`gap = RF_Obj - RO_Obj`; a trivial instance's directory is removed
(`none`); a non-trivial instance's `metadata.json` is rewritten with
`RO_Obj`, `RF_Obj`, `Gap` merged into the existing fields. -/
def Triviality_step (RO RF : ℚ) (meta : Metadata) : Option Metadata :=
  let gap := RF - RO
  if isTrivial gap then none
  else some (dictUpdate meta [("RO_Obj", RO), ("RF_Obj", RF), ("Gap", gap)])

/-- Abstraction of the Python runtime errors the corpus loops can raise. -/
inductive PyError
  | zeroDivision | nameError
deriving DecidableEq, Repr

/-- Loop state of `Triviality_calculate`: number of trivial instances seen
(`count`), number of loop iterations executed, and the set of surviving
instance-directory indices (`problem_k` present iff `k ∈ dirs`). -/
structure TCState where
  count : ℕ
  cycles : ℕ
  dirs : Finset ℕ
deriving DecidableEq

/-- One iteration of the `Triviality_calculate` loop (`triviality.py` lines
59-102) at loop index `i`, with `outcomes i = true` when the solver pair
classifies that instance trivial: the instance is generated as
`problem_{i - count + 1}` (directory created), then deleted if trivial. -/
def tcStep (outcomes : ℕ → Bool) (s : TCState) (i : ℕ) : TCState :=
  let name := i - s.count + 1
  let dirs1 := insert name s.dirs
  if outcomes i then
    { count := s.count + 1, cycles := s.cycles + 1, dirs := dirs1.erase name }
  else
    { count := s.count, cycles := s.cycles + 1, dirs := dirs1 }

/-- State after the first `n` iterations of the `Triviality_calculate` loop. -/
def tcRun (outcomes : ℕ → Bool) (n : ℕ) : TCState :=
  (List.range n).foldl (tcStep outcomes) ⟨0, 0, ∅⟩

/-- `Triviality_calculate` (`triviality.py` lines 29-108): runs exactly
`N_eval` generate-classify cycles, then returns `count / N_eval * 100`; for
`N_eval = 0` the division raises `ZeroDivisionError`. -/
def Triviality_calculate (outcomes : ℕ → Bool) (Neval : ℕ) : Except PyError ℚ :=
  let s := tcRun outcomes Neval
  if Neval = 0 then .error .zeroDivision
  else .ok ((s.count : ℚ) / (Neval : ℚ) * 100)

/-- Loop state of `nontrivial_BMIP_generator`: trivial and non-trivial
counts, attempts executed, surviving directory indices, and the Python loop
variable `iteration` (`none` while still unbound). -/
structure NTState where
  ct : ℕ
  cn : ℕ
  att : ℕ
  dirs : Finset ℕ
  lastIter : Option ℕ
deriving DecidableEq

/-- One body execution of the `nontrivial_BMIP_generator` loop
(`triviality.py` lines 151-195) at loop index `i`: the instance is generated
as `problem_{count_nontrivial + 1}`; a trivial one is deleted, a non-trivial
one is kept and counted. -/
def ntgBody (outcomes : ℕ → Bool) (i : ℕ) (s : NTState) : NTState :=
  let name := s.cn + 1
  let dirs1 := insert name s.dirs
  if outcomes i then
    { ct := s.ct + 1, cn := s.cn, att := s.att + 1,
      dirs := dirs1.erase name, lastIter := some i }
  else
    { ct := s.ct, cn := s.cn + 1, att := s.att + 1,
      dirs := dirs1, lastIter := some i }

/-- The `for iteration in range(max_iterations)` loop with its two `break`
checks (`triviality.py` lines 197-202), driven by the list of remaining
loop indices. -/
def ntgLoop (outcomes : ℕ → Bool) (Ngen maxIter : ℕ) :
    List ℕ → NTState → NTState
  | [], s => s
  | i :: rest, s =>
    let s1 := ntgBody outcomes i s
    if Ngen ≤ s1.cn then s1
    else if maxIter ≤ i + 1 then s1
    else ntgLoop outcomes Ngen maxIter rest s1

/-- Final loop state of `nontrivial_BMIP_generator`. -/
def ntgRun (outcomes : ℕ → Bool) (Ngen I : ℕ) : NTState :=
  ntgLoop outcomes Ngen (I * Ngen) (List.range (I * Ngen)) ⟨0, 0, 0, ∅, none⟩

/-- `nontrivial_BMIP_generator` (`triviality.py` lines 110-210): after the
loop, `trivial_percentage = count_trivial / iteration * 100 if iteration > 0
else 0` reads the loop variable `iteration`; when the loop body never ran
that name is unbound and a `NameError` is raised. -/
def nontrivial_BMIP_generator (outcomes : ℕ → Bool) (Ngen I : ℕ) :
    Except PyError (ℚ × ℕ) :=
  let s := ntgRun outcomes Ngen I
  match s.lastIter with
  | none => .error .nameError
  | some it =>
    .ok ((if 0 < it then (s.ct : ℚ) / (it : ℚ) * 100 else 0), s.cn)

/-- State of one Pyomo variable: its current value and whether it is fixed. -/
structure VarState where
  value : Option ℚ
  fixed : Bool
deriving DecidableEq, Repr

/-- The built Pyomo model as `fixed_upper` / `unfixed_upper` see it: the
eight variable groups plus the constraint and objective data, which those
functions never touch. -/
structure PModel where
  x_uc : List VarState
  y_uc : List VarState
  x_ud : List VarState
  y_ud : List VarState
  x_ld : List VarState
  y_ld : List VarState
  x_lc : List VarState
  y_lc : List VarState
  cons : List (List ℚ × ℚ)
  upperObjC : List ℚ
  lowerObjC : List ℚ
deriving DecidableEq

/-- `upper_param[i].fix(upper_param[i].value)` over one group, guarded by the
`len(upper_param) != 0` check (`problem_loading.py` lines 182-185). -/
def fixGroup (g : List VarState) : List VarState :=
  if g.length = 0 then g
  else g.map fun v => { value := v.value, fixed := true }

/-- `upper_param[i].unfix()` over one group, with the same guard
(`problem_loading.py` lines 229-232). -/
def unfixGroup (g : List VarState) : List VarState :=
  if g.length = 0 then g
  else g.map fun v => { value := v.value, fixed := false }

/-- `fixed_upper` (`problem_loading.py` lines 157-185): pin every variable of
the four upper-level groups to its current value. -/
def fixed_upper (m : PModel) : PModel :=
  { m with
    x_uc := fixGroup m.x_uc
    y_uc := fixGroup m.y_uc
    x_ud := fixGroup m.x_ud
    y_ud := fixGroup m.y_ud }

/-- `unfixed_upper` (`problem_loading.py` lines 204-232): release every
variable of the four upper-level groups. -/
def unfixed_upper (m : PModel) : PModel :=
  { m with
    x_uc := unfixGroup m.x_uc
    y_uc := unfixGroup m.y_uc
    x_ud := unfixGroup m.x_ud
    y_ud := unfixGroup m.y_ud }

/-- All variables of a model in one fixed concatenation order. -/
def allVars (m : PModel) : List VarState :=
  m.x_uc ++ m.y_uc ++ m.x_ud ++ m.y_ud ++ m.x_ld ++ m.y_ld ++ m.x_lc ++ m.y_lc

/-- Dot product of a coefficient list with an assignment. -/
def dotQ (c a : List ℚ) : ℚ := ((c.zip a).map fun p => p.1 * p.2).sum

/-- An assignment (one rational per variable, in `allVars` order) is feasible
when it satisfies every constraint row and agrees with every fixed
variable's pinned value. -/
def feasible (m : PModel) (a : List ℚ) : Prop :=
  (∀ c ∈ m.cons, dotQ c.1 a ≤ c.2) ∧
    ∀ p ∈ (allVars m).zip a, p.1.fixed = true → p.1.value = some p.2

/-- The model's upper-objective value at an assignment. -/
def objVal (m : PModel) (a : List ℚ) : ℚ := dotQ m.upperObjC a

/-- First-match lookup in a metadata record. -/
def getVal : Metadata → String → Option ℚ
  | [], _ => none
  | kv :: rest, k => if kv.1 = k then some kv.2 else getVal rest k

/-- Whether a load attempt produced a model. -/
def isOkE (r : Except LoadError Model) : Bool :=
  match r with
  | .ok _ => true
  | .error _ => false

/-- Number of constraint rows a block contributes in a load result. -/
def consLen (r : Except LoadError Model) (cb : CBlock) : ℕ :=
  match r with
  | .ok m => (m.cons cb).length
  | .error _ => 0

/-- The all-zeros sample stream (every uniform draw lands on the lower
bound). -/
def uZero : ℕ → ℚ := fun _ => 0

/-- The end-to-end scenario's parameter set:
`{x_ud:0, y_ud:0, x_uc:2, y_uc:0, x_ld:0, y_ld:0, x_lc:2, y_lc:0}`. -/
def pC1 : Params := ⟨0, 0, 2, 0, 0, 0, 2, 0⟩

/-- Storage produced by generating an instance for `pC1`. -/
def storC1 : Storage := instToStorage (generate_problem uZero pC1)

/-- Result of building a model from that generated instance. -/
def resC1 : Except LoadError Model := load_problem storC1

/-- Parameter set with a single variable (`x_ud = 1`): the blocks `G_ud`,
`G_uc` and `F_u` are the non-empty ones, each of derived size 1. -/
def pC3 : Params := ⟨1, 0, 0, 0, 0, 0, 0, 0⟩

/-- Hand-made storage for `pC3` in which the `G_ud` files are oversized
(`A` is 2x2 and `b` has 2 entries, though the metadata-derived size is 1),
while `G_uc` and `F_u` have exact sizes; the remaining blocks are empty and
their files absent. -/
def storC3 : Storage :=
  { metadata := pC3
    A := fun cb =>
      match cb with
      | .G_ud => some [[1, 0], [0, 1]]
      | .G_uc => some [[1]]
      | _ => none
    b := fun cb =>
      match cb with
      | .G_ud => some [5, 6]
      | .G_uc => some [1]
      | _ => none
    obj := fun ob =>
      match ob with
      | .F_u => some [2]
      | _ => none }

/-- Classification outcomes: the first attempt trivial, all later ones
non-trivial. -/
def outC2 : ℕ → Bool := fun i => i == 0

/-- A one-variable model whose single upper-level variable carries a solved
value and is not fixed. -/
def mW : PModel :=
  { x_uc := [⟨some 1, false⟩]
    y_uc := []
    x_ud := []
    y_ud := []
    x_ld := []
    y_ld := []
    x_lc := []
    y_lc := []
    cons := [([1], 5)]
    upperObjC := [2]
    lowerObjC := [3] }

/-! ### Helper lemmas: rounding and random draws -/

theorem round_mono_q {x y : ℚ} (h : x ≤ y) : round x ≤ round y := by
  rw [round_eq, round_eq]
  exact Int.floor_mono (by linarith)

theorem round6_mono {x y : ℚ} (h : x ≤ y) : round6 x ≤ round6 y := by
  unfold round6
  have h1 : round (x * 1000000) ≤ round (y * 1000000) :=
    round_mono_q (by nlinarith)
  have h2 : ((round (x * 1000000) : ℤ) : ℚ) ≤ ((round (y * 1000000) : ℤ) : ℚ) :=
    Int.cast_le.mpr h1
  linarith

theorem round6_intCast (c : ℤ) : round6 ((c : ℚ)) = (c : ℚ) := by
  unfold round6
  have h : ((c : ℚ) * 1000000) = ((c * 1000000 : ℤ) : ℚ) := by push_cast; ring
  rw [h, round_intCast]
  push_cast
  field_simp

theorem round6_idem (q : ℚ) : round6 (round6 q) = round6 q := by
  have h : (((round (q * 1000000) : ℤ) : ℚ) / 1000000) * 1000000
      = ((round (q * 1000000) : ℤ) : ℚ) := div_mul_cancel₀ _ (by norm_num)
  show ((round ((((round (q * 1000000) : ℤ) : ℚ) / 1000000) * 1000000) : ℤ) : ℚ) / 1000000
      = round6 q
  rw [h, round_intCast]
  unfold round6
  rfl

theorem uniformVal_mem {low high t : ℚ} (hlh : low ≤ high) (h0 : 0 ≤ t)
    (h1 : t ≤ 1) : low ≤ uniformVal low high t ∧ uniformVal low high t ≤ high := by
  unfold uniformVal
  constructor <;> nlinarith

theorem round6_mem_neg10_10 {q : ℚ} (h1 : -10 ≤ q) (h2 : q ≤ 10) :
    -10 ≤ round6 q ∧ round6 q ≤ 10 := by
  have elo : round6 (-10 : ℚ) = -10 := by
    have := round6_intCast (-10)
    norm_num at this
    exact this
  have ehi : round6 (10 : ℚ) = 10 := by
    have := round6_intCast 10
    norm_num at this
    exact this
  exact ⟨elo ▸ round6_mono h1, ehi ▸ round6_mono h2⟩

theorem round6_mem_0_10 {q : ℚ} (h1 : 0 ≤ q) (h2 : q ≤ 10) :
    0 ≤ round6 q ∧ round6 q ≤ 10 := by
  have elo : round6 (0 : ℚ) = 0 := by
    have := round6_intCast 0
    norm_num at this
    exact this
  have ehi : round6 (10 : ℚ) = 10 := by
    have := round6_intCast 10
    norm_num at this
    exact this
  exact ⟨elo ▸ round6_mono h1, ehi ▸ round6_mono h2⟩

theorem randVec_length (u : ℕ → ℚ) (off len : ℕ) (low high : ℚ) :
    (randVec u off len low high).length = len := by
  simp [randVec]

theorem randMat_length (u : ℕ → ℚ) (off rows cols : ℕ) (low high : ℚ) :
    (randMat u off rows cols low high).length = rows := by
  simp [randMat]

theorem randMat_row_length (u : ℕ → ℚ) (off rows cols : ℕ) (low high : ℚ) :
    ∀ row ∈ randMat u off rows cols low high, row.length = cols := by
  intro row hrow
  simp only [randMat, List.mem_map] at hrow
  obtain ⟨i, _, rfl⟩ := hrow
  exact randVec_length u (off + i * cols) cols low high

theorem randVec_mem_neg10_10 (u : ℕ → ℚ) (off len : ℕ)
    (hu : ∀ i, 0 ≤ u i ∧ u i ≤ 1) :
    ∀ q ∈ randVec u off len (-10) 10, -10 ≤ q ∧ q ≤ 10 ∧ round6 q = q := by
  intro q hq
  simp only [randVec, List.mem_map, List.mem_range] at hq
  obtain ⟨i, _, rfl⟩ := hq
  have hm := @uniformVal_mem (-10) 10 (u (off + i))
    (by norm_num) (hu (off + i)).1 (hu (off + i)).2
  have hb := round6_mem_neg10_10 hm.1 hm.2
  exact ⟨hb.1, hb.2, round6_idem _⟩

theorem randVec_mem_0_10 (u : ℕ → ℚ) (off len : ℕ)
    (hu : ∀ i, 0 ≤ u i ∧ u i ≤ 1) :
    ∀ q ∈ randVec u off len 0 10, 0 ≤ q ∧ q ≤ 10 ∧ round6 q = q := by
  intro q hq
  simp only [randVec, List.mem_map, List.mem_range] at hq
  obtain ⟨i, _, rfl⟩ := hq
  have hm := @uniformVal_mem 0 10 (u (off + i))
    (by norm_num) (hu (off + i)).1 (hu (off + i)).2
  have hb := round6_mem_0_10 hm.1 hm.2
  exact ⟨hb.1, hb.2, round6_idem _⟩

/-! ### Helper lemmas: the loader -/

theorem takeExact_ok {l : List ℚ} {n : ℕ} (h : n ≤ l.length) :
    takeExact l n = .ok (l.take n) := by
  simp [takeExact, h]

theorem takeExact_err {l : List ℚ} {n : ℕ} (h : l.length < n) :
    takeExact l n = .error .shapeMismatch := by
  rw [takeExact, if_neg (by omega)]

theorem takeExact_error_elim {l : List ℚ} {n : ℕ} {e : LoadError}
    (h : takeExact l n = .error e) : e = .shapeMismatch := by
  unfold takeExact at h
  split at h
  · exact absurd h (by simp)
  · injection h with h2
    exact h2.symm

theorem zipRows_err_elim (b : List ℚ) :
    ∀ (A : List (List ℚ)) (n : ℕ) (e : LoadError),
      zipRows A b n = .error e → e = .shapeMismatch := by
  induction b with
  | nil => intro A n e h; simp [zipRows] at h
  | cons bi bs IH =>
    intro A n e h
    cases A with
    | nil =>
      simp only [zipRows] at h
      injection h with h2
      exact h2.symm
    | cons row rows =>
      simp only [zipRows] at h
      rcases htk : takeExact row n with etk | coeffs
      · rw [htk] at h
        injection h with h2
        exact h2 ▸ takeExact_error_elim htk
      · rw [htk] at h
        rcases hz : zipRows rows bs n with ez | rest
        · rw [hz] at h
          injection h with h2
          exact h2 ▸ IH rows n ez hz
        · rw [hz] at h
          exact absurd h (by simp)

theorem zipRows_ok_of (b : List ℚ) :
    ∀ (A : List (List ℚ)) (n : ℕ), b.length ≤ A.length →
      (∀ r ∈ A, n ≤ r.length) →
      ∃ rs, zipRows A b n = .ok rs ∧ rs.length = b.length ∧
        ∀ pr ∈ rs, pr.1.length = n := by
  induction b with
  | nil =>
    intro A n _ _
    exact ⟨[], by simp [zipRows], rfl, by simp⟩
  | cons bi bs IH =>
    intro A n hlen hrows
    cases A with
    | nil => simp at hlen
    | cons row rows =>
      obtain ⟨rs, hz, hl, hq⟩ := IH rows n (by simpa using hlen)
        (fun r hr => hrows r (List.mem_cons_of_mem _ hr))
      have hr0 : n ≤ row.length := hrows row (List.mem_cons_self _ _)
      refine ⟨(row.take n, bi) :: rs, ?_, by simp [hl], ?_⟩
      · simp only [zipRows, takeExact_ok hr0, hz]
      · intro pr hpr
        rcases List.mem_cons.mp hpr with h | h
        · subst h
          simp [List.length_take, Nat.min_eq_left hr0]
        · exact hq pr h

theorem zipRows_ok_iff (b : List ℚ) :
    ∀ (A : List (List ℚ)) (n : ℕ),
      (∃ rs, zipRows A b n = .ok rs) ↔
        (b.length ≤ A.length ∧ ∀ r ∈ A.take b.length, n ≤ r.length) := by
  induction b with
  | nil => intro A n; simp [zipRows]
  | cons bi bs IH =>
    intro A n
    cases A with
    | nil => simp [zipRows]
    | cons row rows =>
      constructor
      · rintro ⟨rs, hz⟩
        simp only [zipRows] at hz
        rcases htk : takeExact row n with etk | coeffs
        · rw [htk] at hz; exact absurd hz (by simp)
        · rw [htk] at hz
          rcases hin : zipRows rows bs n with ez | rest
          · rw [hin] at hz; exact absurd hz (by simp)
          · have hr0 : n ≤ row.length := by
              by_contra hc
              rw [takeExact_err (by omega)] at htk
              exact absurd htk (by simp)
            have ⟨hlen, hall⟩ := (IH rows n).mp ⟨rest, hin⟩
            refine ⟨by simpa using hlen, ?_⟩
            intro r hr
            rcases List.mem_cons.mp (by simpa using hr) with h | h
            · exact h ▸ hr0
            · exact hall r h
      · rintro ⟨hlen, hall⟩
        have hr0 : n ≤ row.length := hall row (by simp)
        obtain ⟨rest, hin⟩ := (IH rows n).mpr
          ⟨by simpa using hlen, fun r hr => hall r (by simp [hr])⟩
        exact ⟨(row.take n, bi) :: rest, by simp only [zipRows, takeExact_ok hr0, hin]⟩

theorem zipRows_err_iff (A : List (List ℚ)) (b : List ℚ) (n : ℕ) :
    zipRows A b n = .error .shapeMismatch ↔
      (A.length < b.length ∨ ∃ r ∈ A.take b.length, r.length < n) := by
  constructor
  · intro h
    by_contra hc
    push_neg at hc
    obtain ⟨rs, hz⟩ := (zipRows_ok_iff b A n).mpr
      ⟨by omega, fun r hr => by have := hc.2 r hr; omega⟩
    rw [h] at hz
    exact absurd hz (by simp)
  · intro h
    rcases hz : zipRows A b n with e | rs
    · rw [zipRows_err_elim b A n e hz]
    · exfalso
      have ⟨hlen, hall⟩ := (zipRows_ok_iff b A n).mp ⟨rs, hz⟩
      rcases h with h | ⟨r, hr, hrn⟩
      · omega
      · have := hall r hr; omega

theorem add_constraints_zero (p : Params) (xs : List GroupId)
    (Afile : Option (List (List ℚ))) (bfile : Option (List ℚ))
    (h : (xs.map (gsize p)).sum = 0) :
    add_constraints p xs Afile bfile = .ok [] := by
  simp [add_constraints, h]

theorem add_constraints_gen (p : Params) (xs : List GroupId) (u : ℕ → ℚ)
    (offA offB n : ℕ) (hn : (xs.map (gsize p)).sum = n) :
    ∃ rs, add_constraints p xs (some (randMat u offA n n (-10) 10))
        (some (randVec u offB n 0 10)) = .ok rs ∧
      rs.length = n ∧ ∀ pr ∈ rs, pr.1.length = n := by
  by_cases h0 : n = 0
  · subst h0
    exact ⟨[], add_constraints_zero p xs _ _ hn, rfl, by simp⟩
  · obtain ⟨rs, hz, hl, hq⟩ := zipRows_ok_of (randVec u offB n 0 10)
      (randMat u offA n n (-10) 10) n
      (by rw [randVec_length, randMat_length])
      (fun r hr => le_of_eq (randMat_row_length u offA n n _ _ r hr).symm)
    refine ⟨rs, ?_, by rw [hl, randVec_length], hq⟩
    simp only [add_constraints, hn, if_neg h0]
    exact hz

theorem build_objective_zero (p : Params) (xs : List GroupId)
    (ofile : Option (List ℚ)) (h : (xs.map (gsize p)).sum = 0) :
    build_objective p xs ofile = .ok [] := by
  simp [build_objective, h]

theorem build_objective_gen (p : Params) (xs : List GroupId) (u : ℕ → ℚ)
    (off n : ℕ) (hn : (xs.map (gsize p)).sum = n) :
    ∃ o, build_objective p xs (some (randVec u off n (-10) 10)) = .ok o ∧
      o.length = n := by
  by_cases h0 : n = 0
  · exact ⟨[], build_objective_zero p xs _ (hn.trans h0), h0.symm⟩
  · refine ⟨(randVec u off n (-10) 10).take n, ?_, ?_⟩
    · simp only [build_objective, hn, if_neg h0]
      exact takeExact_ok (by rw [randVec_length])
    · simp [List.length_take, randVec_length]

theorem except_bind_ok {α β : Type} (a : α) (f : α → Except LoadError β) :
    (Except.ok a >>= f) = f a := rfl

theorem load_gen_ok (u : ℕ → ℚ) (p : Params) :
    ∃ m, load_problem (instToStorage (generate_problem u p)) = .ok m ∧
      m.params = p ∧
      (∀ cb, (m.cons cb).length = cSize p cb ∧
        ∀ pr ∈ m.cons cb, pr.1.length = cSize p cb) ∧
      (∀ ob, (m.objC ob).length = oSize p ob) := by
  obtain ⟨r1, e1, l1, q1⟩ := add_constraints_gen p (cGroups .G_ud) u
    (cOffA p .G_ud) (cOffA p .G_ud + cSize p .G_ud * cSize p .G_ud)
    (cSize p .G_ud) rfl
  obtain ⟨r2, e2, l2, q2⟩ := add_constraints_gen p (cGroups .g_ld) u
    (cOffA p .g_ld) (cOffA p .g_ld + cSize p .g_ld * cSize p .g_ld)
    (cSize p .g_ld) rfl
  obtain ⟨r3, e3, l3, q3⟩ := add_constraints_gen p (cGroups .G_uc) u
    (cOffA p .G_uc) (cOffA p .G_uc + cSize p .G_uc * cSize p .G_uc)
    (cSize p .G_uc) rfl
  obtain ⟨r4, e4, l4, q4⟩ := add_constraints_gen p (cGroups .g_lc) u
    (cOffA p .g_lc) (cOffA p .g_lc + cSize p .g_lc * cSize p .g_lc)
    (cSize p .g_lc) rfl
  obtain ⟨r5, e5, l5, q5⟩ := add_constraints_gen p (cGroups .g_g) u
    (cOffA p .g_g) (cOffA p .g_g + cSize p .g_g * cSize p .g_g)
    (cSize p .g_g) rfl
  obtain ⟨o1, f1, g1⟩ := build_objective_gen p (oGroups .F_u) u
    (oOff p .F_u) (oSize p .F_u) rfl
  obtain ⟨o2, f2, g2⟩ := build_objective_gen p (oGroups .F_l) u
    (oOff p .F_l) (oSize p .F_l) rfl
  obtain ⟨o3, f3, g3⟩ := build_objective_gen p (oGroups .F_c) u
    (oOff p .F_c) (oSize p .F_c) rfl
  obtain ⟨o4, f4, g4⟩ := build_objective_gen p (oGroups .ff_l) u
    (oOff p .ff_l) (oSize p .ff_l) rfl
  obtain ⟨o5, f5, g5⟩ := build_objective_gen p (oGroups .ff_c) u
    (oOff p .ff_c) (oSize p .ff_c) rfl
  refine ⟨⟨p,
    fun cb => match cb with
      | .G_ud => r1 | .g_ld => r2 | .G_uc => r3 | .g_lc => r4 | .g_g => r5,
    fun ob => match ob with
      | .F_u => o1 | .F_l => o2 | .F_c => o3 | .ff_l => o4 | .ff_c => o5⟩,
    ?_, rfl, ?_, ?_⟩
  · show load_problem _ = _
    simp only [load_problem, instToStorage, generate_problem,
      e1, e2, e3, e4, e5, f1, f2, f3, f4, f5, except_bind_ok]
    rfl
  · intro cb
    cases cb
    · exact ⟨l1, q1⟩
    · exact ⟨l2, q2⟩
    · exact ⟨l3, q3⟩
    · exact ⟨l4, q4⟩
    · exact ⟨l5, q5⟩
  · intro ob
    cases ob
    · exact g1
    · exact g2
    · exact g3
    · exact g4
    · exact g5

/-! ### Helper lemmas: metadata merge -/

theorem getVal_map_ne (m : Metadata) (k k' : String) (v : ℚ) (h : k' ≠ k) :
    getVal (m.map fun kv => if kv.1 = k then (k, v) else kv) k' = getVal m k' := by
  induction m with
  | nil => rfl
  | cons kv rest IH =>
    by_cases hkv : kv.1 = k
    · simp only [List.map_cons, if_pos hkv, getVal]
      rw [if_neg (fun hc => h hc.symm), if_neg (by rw [hkv]; exact fun hc => h hc.symm)]
      exact IH
    · simp only [List.map_cons, if_neg hkv, getVal]
      by_cases hk' : kv.1 = k'
      · rw [if_pos hk', if_pos hk']
      · rw [if_neg hk', if_neg hk']
        exact IH

theorem getVal_append_single_ne (m : Metadata) (k k' : String) (v : ℚ)
    (h : k' ≠ k) : getVal (m ++ [(k, v)]) k' = getVal m k' := by
  induction m with
  | nil =>
    simp only [List.nil_append, getVal]
    split
    · rename_i hc
      exact absurd hc.symm h
    · rfl
  | cons kv rest IH =>
    simp only [List.cons_append, getVal]
    by_cases hk' : kv.1 = k'
    · rw [if_pos hk', if_pos hk']
    · rw [if_neg hk', if_neg hk']
      exact IH

theorem getVal_updOne_ne (m : Metadata) (k k' : String) (v : ℚ) (h : k' ≠ k) :
    getVal (updOne m k v) k' = getVal m k' := by
  unfold updOne
  split
  · exact getVal_map_ne m k k' v h
  · exact getVal_append_single_ne m k k' v h

theorem getVal_updOne_self (m : Metadata) (k : String) (v : ℚ) :
    getVal (updOne m k v) k = some v := by
  unfold updOne
  split
  · rename_i hany
    induction m with
    | nil => simp at hany
    | cons kv rest IH =>
      by_cases hkv : kv.1 = k
      · simp [List.map_cons, if_pos hkv, getVal]
      · simp only [List.map_cons, if_neg hkv, getVal, if_neg hkv]
        apply IH
        simp only [List.any_cons, Bool.or_eq_true, decide_eq_true_eq] at hany
        rcases hany with h | h
        · exact absurd h hkv
        · simpa using h
  · rename_i hany
    induction m with
    | nil => simp [getVal]
    | cons kv rest IH =>
      simp only [List.any_cons, Bool.or_eq_true, decide_eq_true_eq, not_or] at hany
      simp only [List.cons_append, getVal, if_neg hany.1]
      apply IH
      simpa using hany.2

/-! ### Helper lemmas: fixing and unfixing variable groups -/

theorem fixGroup_idem (g : List VarState) : fixGroup (fixGroup g) = fixGroup g := by
  rcases g with _ | ⟨a, as⟩
  · rfl
  · simp [fixGroup, List.map_map, Function.comp]

theorem fixGroup_of_unfixed (g : List VarState)
    (h : ∀ v ∈ g, v.fixed = false) : unfixGroup (fixGroup g) = g := by
  rcases g with _ | ⟨a, as⟩
  · rfl
  · simp only [fixGroup, unfixGroup]
    rw [if_neg (by simp), if_neg (by simp), List.map_map]
    have hcomp : ∀ v ∈ a :: as,
        ((fun v => ({ value := v.value, fixed := false } : VarState)) ∘
          fun v => ({ value := v.value, fixed := true } : VarState)) v = v := by
      intro v hv
      have hf := h v hv
      cases v
      simp only [Function.comp]
      simp_all
    rw [List.map_congr_left hcomp]
    simp

/-! ### Helper lemmas: dense numbering and loop bounds -/

theorem insert_Icc_succ (k : ℕ) :
    insert (k + 1) (Finset.Icc 1 k) = Finset.Icc 1 (k + 1) := by
  ext x
  simp only [Finset.mem_insert, Finset.mem_Icc]
  omega

theorem erase_Icc_succ (k : ℕ) :
    (Finset.Icc 1 (k + 1)).erase (k + 1) = Finset.Icc 1 k := by
  ext x
  simp only [Finset.mem_erase, Finset.mem_Icc]
  omega

theorem tcRun_succ (outcomes : ℕ → Bool) (i : ℕ) :
    tcRun outcomes (i + 1) = tcStep outcomes (tcRun outcomes i) i := by
  unfold tcRun
  rw [List.range_succ, List.foldl_append]
  rfl

theorem tc_inv (outcomes : ℕ → Bool) (i : ℕ) :
    (tcRun outcomes i).count ≤ i ∧ (tcRun outcomes i).cycles = i ∧
      (tcRun outcomes i).dirs = Finset.Icc 1 (i - (tcRun outcomes i).count) := by
  induction i with
  | zero =>
    refine ⟨le_refl 0, rfl, ?_⟩
    show (∅ : Finset ℕ) = Finset.Icc 1 0
    decide
  | succ i IH =>
    obtain ⟨hcnt, hcyc, hdirs⟩ := IH
    rw [tcRun_succ]
    unfold tcStep
    split
    · refine ⟨by simp; omega, by simp [hcyc], ?_⟩
      simp only
      rw [hdirs, insert_Icc_succ, erase_Icc_succ]
      congr 1
      omega
    · refine ⟨by simp; omega, by simp [hcyc], ?_⟩
      simp only
      rw [hdirs, insert_Icc_succ]
      congr 1
      omega

theorem ntgBody_att (outcomes : ℕ → Bool) (i : ℕ) (s : NTState) :
    (ntgBody outcomes i s).att = s.att + 1 := by
  unfold ntgBody
  split <;> rfl

theorem ntgBody_cn (outcomes : ℕ → Bool) (i : ℕ) (s : NTState) :
    (ntgBody outcomes i s).cn ≤ s.cn + 1 := by
  unfold ntgBody
  split <;> simp

theorem ntgLoop_att (outcomes : ℕ → Bool) (Ngen maxIter : ℕ) :
    ∀ (l : List ℕ) (s : NTState),
      (ntgLoop outcomes Ngen maxIter l s).att ≤ s.att + l.length := by
  intro l
  induction l with
  | nil => intro s; simp [ntgLoop]
  | cons i rest IH =>
    intro s
    have hb := ntgBody_att outcomes i s
    have hrec := IH (ntgBody outcomes i s)
    simp only [ntgLoop, List.length_cons]
    split
    · omega
    · split
      · omega
      · omega

theorem ntgLoop_cn (outcomes : ℕ → Bool) (Ngen maxIter : ℕ) :
    ∀ (l : List ℕ) (s : NTState), s.cn < Ngen →
      (ntgLoop outcomes Ngen maxIter l s).cn ≤ Ngen := by
  intro l
  induction l with
  | nil => intro s h; simpa [ntgLoop] using le_of_lt h
  | cons i rest IH =>
    intro s h
    have hb := ntgBody_cn outcomes i s
    simp only [ntgLoop]
    split
    · omega
    · rename_i hbreak
      split
      · omega
      · exact IH (ntgBody outcomes i s) (by omega)

theorem ntgBody_dirs (outcomes : ℕ → Bool) (i : ℕ) (s : NTState)
    (h : s.dirs = Finset.Icc 1 s.cn) :
    (ntgBody outcomes i s).dirs = Finset.Icc 1 (ntgBody outcomes i s).cn := by
  unfold ntgBody
  split
  · simp only
    rw [h, insert_Icc_succ, erase_Icc_succ]
  · simp only
    rw [h, insert_Icc_succ]

theorem ntgLoop_dirs (outcomes : ℕ → Bool) (Ngen maxIter : ℕ) :
    ∀ (l : List ℕ) (s : NTState), s.dirs = Finset.Icc 1 s.cn →
      (ntgLoop outcomes Ngen maxIter l s).dirs =
        Finset.Icc 1 (ntgLoop outcomes Ngen maxIter l s).cn := by
  intro l
  induction l with
  | nil => intro s h; simpa [ntgLoop] using h
  | cons i rest IH =>
    intro s h
    have hb := ntgBody_dirs outcomes i s h
    simp only [ntgLoop]
    split
    · exact hb
    · split
      · exact hb
      · exact IH (ntgBody outcomes i s) hb

theorem randMat_mem_neg10_10 (u : ℕ → ℚ) (off rows cols : ℕ)
    (hu : ∀ i, 0 ≤ u i ∧ u i ≤ 1) :
    ∀ row ∈ randMat u off rows cols (-10) 10,
      ∀ q ∈ row, -10 ≤ q ∧ q ≤ 10 ∧ round6 q = q := by
  intro row hrow
  simp only [randMat, List.mem_map, List.mem_range] at hrow
  obtain ⟨i, _, rfl⟩ := hrow
  exact randVec_mem_neg10_10 u _ cols hu

/-! ### Claim theorems -/

/-- C1 counterexample: for the parameter set
`{x_ud:0, y_ud:0, x_uc:2, y_uc:0, x_ld:0, y_ld:0, x_lc:2, y_lc:0}` the build
succeeds and the `G_uc` block contributes 2 constraint rows (its feeding
groups `x_ud, y_ud, x_uc, y_uc` have total size 2, not 0), so `G_uc` is not
absent from the built Model and `g_g` is not the only non-empty Constraint
Block. -/
theorem C1_counterexample : isOkE resC1 = true ∧ consLen resC1 CBlock.G_uc = 2 := by
  obtain ⟨m, hm, _, hc, _⟩ := load_gen_ok uZero pC1
  constructor
  · show isOkE (load_problem (instToStorage (generate_problem uZero pC1))) = true
    rw [hm]
    rfl
  · show consLen (load_problem (instToStorage (generate_problem uZero pC1)))
      CBlock.G_uc = 2
    rw [hm]
    show (m.cons CBlock.G_uc).length = 2
    rw [(hc CBlock.G_uc).1]
    rfl

/-- C1 amended: for the parameter set
`{x_ud:0, y_ud:0, x_uc:2, y_uc:0, x_ld:0, y_ld:0, x_lc:2, y_lc:0}` and any
sample stream, building a Model succeeds and produces exactly three non-empty
Constraint Blocks — `g_g` of size 4x4 and `G_uc`, `g_lc` of size 2x2 each —
and exactly two non-empty Objective Blocks, `F_c` and `ff_c` of length 4,
while `G_ud`, `g_ld`, `F_u`, `F_l` and `ff_l` are absent (no constraints /
the zero term). -/
theorem C1_amended (u : ℕ → ℚ) :
    ∃ m, load_problem (instToStorage (generate_problem u pC1)) = .ok m ∧
      (m.cons CBlock.g_g).length = 4 ∧
      (∀ pr ∈ m.cons CBlock.g_g, pr.1.length = 4) ∧
      (m.objC OBlock.F_c).length = 4 ∧ (m.objC OBlock.ff_c).length = 4 ∧
      (m.cons CBlock.G_uc).length = 2 ∧
      (∀ pr ∈ m.cons CBlock.G_uc, pr.1.length = 2) ∧
      (m.cons CBlock.g_lc).length = 2 ∧
      (∀ pr ∈ m.cons CBlock.g_lc, pr.1.length = 2) ∧
      m.cons CBlock.G_ud = [] ∧ m.cons CBlock.g_ld = [] ∧
      m.objC OBlock.F_u = [] ∧ m.objC OBlock.F_l = [] ∧
      m.objC OBlock.ff_l = [] := by
  obtain ⟨m, hm, _, hc, ho⟩ := load_gen_ok u pC1
  refine ⟨m, hm, ?_, ?_, ?_, ?_, ?_, ?_, ?_, ?_, ?_, ?_, ?_, ?_, ?_⟩
  · rw [(hc CBlock.g_g).1]
    rfl
  · intro pr hpr
    rw [(hc CBlock.g_g).2 pr hpr]
    rfl
  · rw [ho OBlock.F_c]
    rfl
  · rw [ho OBlock.ff_c]
    rfl
  · rw [(hc CBlock.G_uc).1]
    rfl
  · intro pr hpr
    rw [(hc CBlock.G_uc).2 pr hpr]
    rfl
  · rw [(hc CBlock.g_lc).1]
    rfl
  · intro pr hpr
    rw [(hc CBlock.g_lc).2 pr hpr]
    rfl
  · exact List.length_eq_zero.mp ((hc CBlock.G_ud).1)
  · exact List.length_eq_zero.mp ((hc CBlock.g_ld).1)
  · exact List.length_eq_zero.mp (ho OBlock.F_u)
  · exact List.length_eq_zero.mp (ho OBlock.F_l)
  · exact List.length_eq_zero.mp (ho OBlock.ff_l)

/-- C3 counterexample: storage whose `G_ud` matrix is 2x2 and `G_ud` vector
has 2 entries while the metadata-derived size is 1 — the dimensions disagree
with the metadata, yet `load_problem` succeeds (extra rows and columns are
read without error), so no `ShapeMismatchError` is raised. -/
theorem C3_counterexample :
    isOkE (load_problem storC3) = true ∧
      ((storC3.A CBlock.G_ud).getD []).length ≠ cSize pC3 CBlock.G_ud ∧
      ((storC3.b CBlock.G_ud).getD []).length ≠ cSize pC3 CBlock.G_ud := by
  refine ⟨by decide, by decide, by decide⟩

/-- C3 amended: for a non-empty block, a missing `_A`, `_b` or objective file
raises `MissingDataError`, and an error always means no model is built; but a
`ShapeMismatchError` is raised exactly when the data forces an out-of-range
access — `b` longer than `A`'s row count, or an accessed row (or the
objective vector) shorter than the metadata-derived width `n`. Oversized
data, and a `b` shorter than the metadata-derived size, load without error. -/
theorem C3_amended (p : Params) (xs : List GroupId) (A : List (List ℚ))
    (b : List ℚ) (o : List ℚ) (bfile : Option (List ℚ))
    (hn : (xs.map (gsize p)).sum ≠ 0) :
    add_constraints p xs none bfile = .error .missingData ∧
    add_constraints p xs (some A) none = .error .missingData ∧
    build_objective p xs none = .error .missingData ∧
    (add_constraints p xs (some A) (some b) = .error .shapeMismatch ↔
      (A.length < b.length ∨
        ∃ r ∈ A.take b.length, r.length < (xs.map (gsize p)).sum)) ∧
    (build_objective p xs (some o) = .error .shapeMismatch ↔
      o.length < (xs.map (gsize p)).sum) ∧
    (∀ s e, load_problem s = .error e → ∀ mo, load_problem s ≠ .ok mo) := by
  refine ⟨?_, ?_, ?_, ?_, ?_, ?_⟩
  · simp only [add_constraints]
    rw [if_neg hn]
  · simp only [add_constraints]
    rw [if_neg hn]
  · simp only [build_objective]
    rw [if_neg hn]
  · simp only [add_constraints]
    rw [if_neg hn]
    exact zipRows_err_iff A b _
  · simp only [build_objective]
    rw [if_neg hn]
    by_cases hlen : (xs.map (gsize p)).sum ≤ o.length
    · rw [takeExact_ok hlen]
      constructor
      · intro h
        exact absurd h (by simp)
      · omega
    · rw [takeExact_err (by omega)]
      constructor
      · intro _
        omega
      · intro _
        rfl
  · intro s e he mo hmo
    rw [he] at hmo
    exact absurd hmo (by simp)

/-- C3 witness: a non-empty block (`x_ud = 1`) with its `_A` file absent
fails with `MissingDataError`. -/
theorem C3_witness :
    add_constraints pC3 [GroupId.x_ud] none (some [2]) = .error .missingData :=
  (C3_amended pC3 [GroupId.x_ud] [] [] [] (some [2]) (by decide)).1

/-- C5: for every dimension specification and every in-range sample stream,
the generator persists, for each of the 5 Constraint Blocks, a square matrix
of shape `(n, n)` with entries in `[-10, 10]` rounded to 6 decimal places
(fixed points of `round6`) and a right-hand side of length `n` with entries
in `[0, 10]`, and for each of the 5 Objective Blocks a vector of length `n`
with entries in `[-10, 10]`, where `n` is the summed size of the block's
feeding Variable Groups (`G_ud`: ud; `g_ld`: ld; `G_uc`: ud+uc; `g_lc`:
ld+lc; `g_g`: uc+lc; and the objective blocks' groups likewise). -/
theorem C5_generator_shapes (u : ℕ → ℚ) (p : Params)
    (hu : ∀ i, 0 ≤ u i ∧ u i ≤ 1) :
    (∀ cb : CBlock,
      ((generate_problem u p).A cb).length = cSize p cb ∧
      (∀ row ∈ (generate_problem u p).A cb, row.length = cSize p cb ∧
        ∀ q ∈ row, -10 ≤ q ∧ q ≤ 10 ∧ round6 q = q) ∧
      ((generate_problem u p).b cb).length = cSize p cb ∧
      (∀ q ∈ (generate_problem u p).b cb, 0 ≤ q ∧ q ≤ 10 ∧ round6 q = q)) ∧
    (∀ ob : OBlock,
      ((generate_problem u p).obj ob).length = oSize p ob ∧
      ∀ q ∈ (generate_problem u p).obj ob, -10 ≤ q ∧ q ≤ 10 ∧ round6 q = q) ∧
    cSize p CBlock.G_ud = p.x_ud + p.y_ud ∧
    cSize p CBlock.g_ld = p.x_ld + p.y_ld ∧
    cSize p CBlock.G_uc = p.x_ud + p.y_ud + p.x_uc + p.y_uc ∧
    cSize p CBlock.g_lc = p.x_ld + p.y_ld + p.x_lc + p.y_lc ∧
    cSize p CBlock.g_g = p.x_uc + p.y_uc + p.x_lc + p.y_lc ∧
    oSize p OBlock.F_u = p.x_ud + p.y_ud ∧
    oSize p OBlock.F_l = p.x_ld + p.y_ld ∧
    oSize p OBlock.F_c = p.x_uc + p.y_uc + p.x_lc + p.y_lc ∧
    oSize p OBlock.ff_l = p.x_ld + p.y_ld ∧
    oSize p OBlock.ff_c = p.x_uc + p.y_uc + p.x_lc + p.y_lc := by
  refine ⟨?_, ?_, ?_, ?_, ?_, ?_, ?_, ?_, ?_, ?_, ?_, ?_⟩
  · intro cb
    refine ⟨randMat_length u _ _ _ _ _, ?_, randVec_length u _ _ _ _,
      randVec_mem_0_10 u _ _ hu⟩
    intro row hrow
    exact ⟨randMat_row_length u _ _ _ _ _ row hrow,
      randMat_mem_neg10_10 u _ _ _ hu row hrow⟩
  · intro ob
    exact ⟨randVec_length u _ _ _ _, randVec_mem_neg10_10 u _ _ hu⟩
  all_goals (simp only [cSize, oSize, cGroups, oGroups, gsize, List.map_cons,
    List.map_nil, List.sum_cons, List.sum_nil]; omega)

/-- C5 witness: at the all-zeros sample stream and the scenario parameters,
the `g_g` matrix has the derived number of rows. -/
theorem C5_witness :
    ((generate_problem uZero pC1).A CBlock.g_g).length = cSize pC1 CBlock.g_g :=
  ((C5_generator_shapes uZero pC1
    (fun i => ⟨by norm_num [uZero], by norm_num [uZero]⟩)).1 CBlock.g_g).1

/-- C4: the oracle classifies an instance trivial iff `|gap| < 1e-6` where
`gap = RF_Obj - RO_Obj` (symmetric under negating the gap); a trivial
instance is deleted from storage (the step yields `none`), while a
non-trivial instance's metadata gets `RO_Obj`, `RF_Obj`, `Gap` merged into
the existing fields: the three keys are set and every other key keeps its
previous value. -/
theorem C4_classification (RO RF : ℚ) (meta : Metadata) :
    (Triviality_step RO RF meta = none ↔ |RF - RO| < 1 / 1000000) ∧
    (∀ g : ℚ, isTrivial g ↔ isTrivial (-g)) ∧
    (¬ isTrivial (RF - RO) →
      Triviality_step RO RF meta =
        some (dictUpdate meta
          [("RO_Obj", RO), ("RF_Obj", RF), ("Gap", RF - RO)]) ∧
      getVal (dictUpdate meta
        [("RO_Obj", RO), ("RF_Obj", RF), ("Gap", RF - RO)]) "RO_Obj" = some RO ∧
      getVal (dictUpdate meta
        [("RO_Obj", RO), ("RF_Obj", RF), ("Gap", RF - RO)]) "RF_Obj" = some RF ∧
      getVal (dictUpdate meta
        [("RO_Obj", RO), ("RF_Obj", RF), ("Gap", RF - RO)]) "Gap" =
          some (RF - RO) ∧
      ∀ k, k ≠ "RO_Obj" → k ≠ "RF_Obj" → k ≠ "Gap" →
        getVal (dictUpdate meta
          [("RO_Obj", RO), ("RF_Obj", RF), ("Gap", RF - RO)]) k =
            getVal meta k) := by
  have hd : dictUpdate meta [("RO_Obj", RO), ("RF_Obj", RF), ("Gap", RF - RO)]
      = updOne (updOne (updOne meta "RO_Obj" RO) "RF_Obj" RF) "Gap" (RF - RO) :=
    rfl
  refine ⟨?_, ?_, ?_⟩
  · simp only [Triviality_step]
    split
    · rename_i h
      exact ⟨fun _ => h, fun _ => rfl⟩
    · rename_i h
      exact ⟨fun hc => absurd hc (by simp), fun hlt => absurd hlt h⟩
  · intro g
    unfold isTrivial
    rw [abs_neg]
  · intro hnt
    refine ⟨?_, ?_, ?_, ?_, ?_⟩
    · unfold Triviality_step
      rw [if_neg hnt]
    · rw [hd, getVal_updOne_ne _ _ _ _ (by decide),
        getVal_updOne_ne _ _ _ _ (by decide), getVal_updOne_self]
    · rw [hd, getVal_updOne_ne _ _ _ _ (by decide), getVal_updOne_self]
    · rw [hd, getVal_updOne_self]
    · intro k hk1 hk2 hk3
      rw [hd, getVal_updOne_ne _ _ _ _ hk3, getVal_updOne_ne _ _ _ _ hk2,
        getVal_updOne_ne _ _ _ _ hk1]

/-- C4 witness: with `RO_Obj = 0`, `RF_Obj = 1` the gap is non-trivial and
the step merges the three evaluation keys into the metadata. -/
theorem C4_witness :
    Triviality_step 0 1 [("x_ud", 3)] =
      some (dictUpdate [("x_ud", 3)]
        [("RO_Obj", 0), ("RF_Obj", 1), ("Gap", 1 - 0)]) :=
  ((C4_classification 0 1 [("x_ud", 3)]).2.2
    (by norm_num [isTrivial, trivialThreshold])).1

/-- C2: the code divides `count_trivial` by the final value of the loop
variable `iteration` (the last 0-based index), not by the number of attempts
made.  At `N_gen = 1`, `I = 2` with outcomes (trivial, non-trivial): two
attempts are made, one of them trivial, so the claimed formula
`100 * count_trivial / attempts_made` gives 50, yet the code returns 100
(together with the retained count 1). -/
theorem C2_code_eval :
    nontrivial_BMIP_generator outC2 1 2 = .ok (100, 1) ∧
      (100 : ℚ) ≠ 100 * 1 / 2 := by
  constructor
  · simp [nontrivial_BMIP_generator, ntgRun, ntgLoop, ntgBody, outC2,
      List.range_succ]
  · norm_num

/-- C6: for every outcome sequence, `nontrivial_BMIP_generator` with target
`N_gen` and multiplier `I` executes at most `I * N_gen` loop attempts and
retains at most `N_gen` non-trivial instances. -/
theorem C6_budget_bounds (outcomes : ℕ → Bool) (Ngen I : ℕ) :
    (ntgRun outcomes Ngen I).att ≤ I * Ngen ∧
      (ntgRun outcomes Ngen I).cn ≤ Ngen := by
  constructor
  · have h := ntgLoop_att outcomes Ngen (I * Ngen) (List.range (I * Ngen))
      ⟨0, 0, 0, ∅, none⟩
    simpa [ntgRun] using h
  · by_cases h0 : Ngen = 0
    · subst h0
      have hz : I * 0 = 0 := by omega
      simp [ntgRun, hz, ntgLoop]
    · have h := ntgLoop_cn outcomes Ngen (I * Ngen) (List.range (I * Ngen))
        ⟨0, 0, 0, ∅, none⟩ (by show 0 < Ngen; omega)
      simpa [ntgRun] using h

/-- C7 counterexample: at `target_eval_count = 0` the final statistics
division `count / N_eval` raises `ZeroDivisionError` instead of returning a
value in `[0, 100]`. -/
theorem C7_counterexample :
    Triviality_calculate (fun _ => true) 0 = .error .zeroDivision := rfl

/-- C7 amended: for `target_eval_count = N ≥ 1`, `Triviality_calculate`
performs exactly `N` generate-classify cycles regardless of outcomes and
returns `100 * trivial_count / N`, which lies in `[0, 100]`; at `N = 0` the
division raises `ZeroDivisionError`. -/
theorem C7_amended (outcomes : ℕ → Bool) (N : ℕ) (hN : 0 < N) :
    (tcRun outcomes N).cycles = N ∧
      Triviality_calculate outcomes N =
        .ok (((tcRun outcomes N).count : ℚ) / (N : ℚ) * 100) ∧
      0 ≤ ((tcRun outcomes N).count : ℚ) / (N : ℚ) * 100 ∧
      ((tcRun outcomes N).count : ℚ) / (N : ℚ) * 100 ≤ 100 := by
  obtain ⟨hcnt, hcyc, _⟩ := tc_inv outcomes N
  refine ⟨hcyc, ?_, ?_, ?_⟩
  · simp only [Triviality_calculate]
    rw [if_neg (by omega)]
  · positivity
  · have hc : ((tcRun outcomes N).count : ℚ) ≤ (N : ℚ) := by exact_mod_cast hcnt
    have hNq : (0 : ℚ) < (N : ℚ) := by exact_mod_cast hN
    have hdiv : ((tcRun outcomes N).count : ℚ) / (N : ℚ) ≤ 1 :=
      (div_le_one hNq).mpr hc
    nlinarith

/-- C7 witness: two cycles are performed at `N = 2`. -/
theorem C7_witness : (tcRun (fun _ => false) 2).cycles = 2 :=
  (C7_amended (fun _ => false) 2 (by norm_num)).1

/-- C8: both corpus loops keep the surviving instance directories densely
numbered `problem_1 ... problem_k`: after every completed iteration of the
`Triviality_calculate` loop the kept set is `Icc 1 (i - count)` (the
non-trivial count so far), one body step of `nontrivial_BMIP_generator`
preserves `dirs = Icc 1 count_nontrivial`, and the final state of the
`nontrivial_BMIP_generator` loop satisfies it. -/
theorem C8_dense_numbering :
    (∀ (outcomes : ℕ → Bool) (i : ℕ),
      (tcRun outcomes i).dirs =
        Finset.Icc 1 (i - (tcRun outcomes i).count)) ∧
    (∀ (outcomes : ℕ → Bool) (i : ℕ) (s : NTState),
      s.dirs = Finset.Icc 1 s.cn →
      (ntgBody outcomes i s).dirs = Finset.Icc 1 (ntgBody outcomes i s).cn) ∧
    (∀ (outcomes : ℕ → Bool) (Ngen I : ℕ),
      (ntgRun outcomes Ngen I).dirs =
        Finset.Icc 1 (ntgRun outcomes Ngen I).cn) := by
  refine ⟨?_, ?_, ?_⟩
  · intro o i
    exact (tc_inv o i).2.2
  · exact ntgBody_dirs
  · intro o Ngen I
    exact ntgLoop_dirs o Ngen (I * Ngen) (List.range (I * Ngen))
      ⟨0, 0, 0, ∅, none⟩ (by decide)

/-- C8 witness: one non-trivial body step starting from the empty corpus
creates exactly `problem_1`. -/
theorem C8_witness :
    (ntgBody (fun _ => false) 0 ⟨0, 0, 0, ∅, none⟩).dirs =
      Finset.Icc 1 (ntgBody (fun _ => false) 0 ⟨0, 0, 0, ∅, none⟩).cn :=
  C8_dense_numbering.2.1 (fun _ => false) 0 ⟨0, 0, 0, ∅, none⟩ (by decide)

/-- C9: `fixed_upper` is idempotent and a no-op when all four upper-level
groups are empty; on a model whose upper variables are not fixed (the state
of every freshly built model), `fixed_upper` followed by `unfixed_upper`
restores the exact model state, hence the same feasible region and the same
objective as a model that never had `fixed_upper` applied. -/
theorem C9_fix_unfix (m : PModel) :
    fixed_upper (fixed_upper m) = fixed_upper m ∧
    (m.x_uc = [] → m.y_uc = [] → m.x_ud = [] → m.y_ud = [] →
      fixed_upper m = m) ∧
    ((∀ v ∈ m.x_uc, v.fixed = false) → (∀ v ∈ m.y_uc, v.fixed = false) →
      (∀ v ∈ m.x_ud, v.fixed = false) → (∀ v ∈ m.y_ud, v.fixed = false) →
      unfixed_upper (fixed_upper m) = m ∧
      (∀ a, feasible (unfixed_upper (fixed_upper m)) a ↔ feasible m a) ∧
      (∀ a, objVal (unfixed_upper (fixed_upper m)) a = objVal m a)) := by
  refine ⟨?_, ?_, ?_⟩
  · obtain ⟨xuc, yuc, xud, yud, xld, yld, xlc, ylc, cns, uo, lo⟩ := m
    simp only [fixed_upper, fixGroup_idem]
  · intro h1 h2 h3 h4
    obtain ⟨xuc, yuc, xud, yud, xld, yld, xlc, ylc, cns, uo, lo⟩ := m
    simp only at h1 h2 h3 h4
    subst h1 h2 h3 h4
    simp [fixed_upper, fixGroup]
  · intro h1 h2 h3 h4
    have he : unfixed_upper (fixed_upper m) = m := by
      obtain ⟨xuc, yuc, xud, yud, xld, yld, xlc, ylc, cns, uo, lo⟩ := m
      simp only [fixed_upper, unfixed_upper, fixGroup_of_unfixed _ h1,
        fixGroup_of_unfixed _ h2, fixGroup_of_unfixed _ h3,
        fixGroup_of_unfixed _ h4]
    exact ⟨he, fun a => by rw [he], fun a => by rw [he]⟩

/-- C9 witness: on a one-variable model with its upper variable unfixed,
fixing then unfixing restores the model exactly. -/
theorem C9_witness : unfixed_upper (fixed_upper mW) = mW :=
  ((C9_fix_unfix mW).2.2 (by decide) (by decide) (by decide) (by decide)).1

/-- C10: with a zero attempt budget (`I * N_gen = 0`) the loop body never
runs, the loop variable `iteration` is never bound, and the statistics line
raises `NameError` instead of returning `(0, 0)`. -/
theorem C10_zero_budget (outcomes : ℕ → Bool) (Ngen I : ℕ)
    (h : I * Ngen = 0) :
    nontrivial_BMIP_generator outcomes Ngen I = .error .nameError := by
  simp [nontrivial_BMIP_generator, ntgRun, h, ntgLoop]

/-- C10 witness: `N_gen = 0`, `I = 3` raises `NameError`. -/
theorem C10_witness :
    3 * 0 = 0 ∧
      nontrivial_BMIP_generator (fun _ => true) 0 3 = .error .nameError :=
  ⟨rfl, C10_zero_budget (fun _ => true) 0 3 rfl⟩
